import Mathlib

/-!
Verification of the taxonomy-resolution engine of `fda-devices-mcp`
(`src/index.ts`, second server copy, lines 641 ff.): synonym expansion,
combinatorial query broadening, relevance scoring, the budgeted search
loop of `classify_device`, and the 510(k) bridge fallback.

All definitions are direct translations of the TypeScript source.
Numeric scores are modelled exactly over `ℚ`; the JavaScript `Set` and
`Map` are modelled as lists preserving insertion order, matching their
iteration semantics.
-/

namespace FdaSpec

/-- ASCII lowercasing, JS `toLowerCase` on the ASCII strings this system
handles. -/
def strLower (s : String) : String := ⟨s.data.map Char.toLower⟩

/-- ASCII uppercasing, JS `toUpperCase` on the ASCII strings this system
handles. -/
def strUpper (s : String) : String := ⟨s.data.map Char.toUpper⟩

/-- Helper of `splitWs`: accumulate the current word (reversed) while
scanning. -/
def wordsAux : List Char → List Char → List String
  | [], acc => if acc.isEmpty then [] else [⟨acc.reverse⟩]
  | c :: cs, acc =>
    if c.isWhitespace then
      (if acc.isEmpty then wordsAux cs [] else ⟨acc.reverse⟩ :: wordsAux cs [])
    else wordsAux cs (c :: acc)

/-- Split on whitespace runs, as JS `"…".split(/\s+/)` behaves on strings
without leading whitespace (the only strings it is applied to here:
synonym-table phrases, which contain no leading/trailing whitespace). -/
def splitWs (s : String) : List String := wordsAux s.data []

/-- The `SYNONYMS` table of `src/index.ts` (lines 816–893), in source order. -/
def SYNONYMS : List (String × List String) :=
  [ ("ecg", ["electrocardiograph"]),
    ("ekg", ["electrocardiograph"]),
    ("robot", ["computer controlled instrument"]),
    ("robotic", ["computer controlled instrument"]),
    ("bp", ["blood pressure"]),
    ("cgm", ["continuous glucose monitor"]),
    ("ai", ["artificial intelligence"]),
    ("mri", ["magnetic resonance imaging"]),
    ("ct", ["computed tomography"]),
    ("xray", ["x-ray"]),
    ("x-ray", ["radiographic"]),
    ("ultrasound", ["ultrasonic"]),
    ("cpap", ["continuous positive airway pressure"]),
    ("tens", ["transcutaneous electrical nerve stimulation"]),
    ("iud", ["intrauterine"]),
    ("stent", ["endoprosthesis"]),
    ("pacemaker", ["pulse generator"]),
    ("defibrillator", ["defibrillator"]),
    ("ventilator", ["ventilator"]),
    ("catheter", ["catheter"]),
    ("laser", ["laser"]),
    ("pump", ["infusion pump"]),
    ("thermometer", ["thermometer"]),
    ("oximeter", ["oximeter"]),
    ("hearing", ["hearing aid"]),
    ("insulin", ["insulin"]),
    ("dialysis", ["hemodialysis"]),
    ("prosthetic", ["prosthesis"]),
    ("implant", ["implant"]),
    ("endoscope", ["endoscope"]),
    ("monitor", ["monitor"]),
    ("wearable", ["wearable"]),
    ("patch", ["ambulatory"]),
    ("portable", ["portable"]),
    ("wireless", ["wireless"]),
    ("bluetooth", ["wireless"]),
    ("home", ["home use"]),
    ("otc", ["over-the-counter"]),
    ("samd", ["software"]),
    ("software device", ["software"]),
    ("app", ["software", "mobile"]),
    ("cad", ["computer aided detection"]),
    ("cad-x", ["computer aided diagnosis"]),
    ("triage", ["triage"]),
    ("diagnostic", ["diagnostic"]),
    ("screening", ["screening"]),
    ("imaging", ["image processing"]),
    ("ehr", ["electronic health record"]),
    ("clinical", ["clinical decision support"]),
    ("cds", ["clinical decision support"]),
    ("ml", ["machine learning"]),
    ("deep learning", ["machine learning"]),
    ("algorithm", ["algorithm"]),
    ("waveform", ["electrocardiograph"]),
    ("heart monitor", ["electrocardiograph"]),
    ("heart rate", ["heart rate"]),
    ("blood sugar", ["glucose"]),
    ("glucometer", ["glucose meter"]),
    ("spo2", ["oximeter"]),
    ("sleep apnea", ["sleep apnea"]),
    ("mammography", ["mammograph"]),
    ("mammogram", ["mammograph"]),
    ("polyp", ["lesion"]),
    ("colonoscopy", ["endoscope gastrointestinal"]),
    ("endoscopy", ["endoscope"]),
    ("dental", ["dental"]),
    ("dermatology", ["dermatoscope"]),
    ("retinal", ["retinal"]),
    ("fundus", ["fundus"]),
    ("stroke", ["stroke"]),
    ("aneurysm", ["aneurysm"]),
    ("fracture", ["fracture"]),
    ("tumor", ["lesion"]),
    ("cancer", ["cancer"]),
    ("detection", ["detection"]),
    ("diagnosis", ["diagnosis"]) ]

/-- Lookup of `SYNONYMS[key]` (presence test and value) for an already-lowercased key. -/
def synLookup (key : String) : Option (List String) :=
  List.lookup key SYNONYMS

/-- One step of the dedup accumulator of `expandSynonyms`: the shared
`seen` set of lowercased words plus the output array. -/
def addWord : List String × List String → String → List String × List String
  | (seen, out), w =>
    if seen.contains (strLower w) then (seen, out) else (strLower w :: seen, out ++ [w])

/-- Processing of one input term by `expandSynonyms`: either every
whitespace-split word of every replacement phrase, or the term itself. -/
def expandStep (st : List String × List String) (term : String) :
    List String × List String :=
  match synLookup (strLower term) with
  | some syns => (syns.flatMap splitWs).foldl addWord st
  | none => addWord st term

/-- Function `expandSynonyms` (src/index.ts lines 896–919). -/
def expandSynonyms (terms : List String) : List String :=
  (terms.foldl expandStep ([], [])).2

/-- The words one input term contributes to the replacement stream of
`expandSynonyms`: the split words of all its replacement phrases, or the
term itself when it has no table entry. -/
def wordsOf (t : String) : List String :=
  match synLookup (strLower t) with
  | some syns => syns.flatMap splitWs
  | none => [t]

/-- The raw replacement stream of `expandSynonyms`, before deduplication:
each term contributes its split replacement phrases, or itself. -/
def rawWords (terms : List String) : List String :=
  terms.flatMap wordsOf

/-- The `seen` set left by folding `addWord` over a word list. -/
def seenFold : List String → List String → List String
  | seen, [] => seen
  | seen, w :: ws =>
    if seen.contains (strLower w) then seenFold seen ws
    else seenFold (strLower w :: seen) ws

/-- First-seen-order case-insensitive deduplication. -/
def dedupCaseGo (seen : List String) : List String → List String
  | [] => []
  | w :: ws =>
    if seen.contains (strLower w) then dedupCaseGo seen ws
    else w :: dedupCaseGo (strLower w :: seen) ws

def dedupCase (ws : List String) : List String := dedupCaseGo [] ws

/-- Contiguity test of `getCombinationIndices`: each index is the
predecessor plus one. -/
def isContiguous : List Nat → Bool
  | [] => true
  | [_] => true
  | a :: b :: rest => (b == a + 1) && isContiguous (b :: rest)

/-- The recursive generator `combine` inside `getCombinationIndices`:
all ascending index lists of the given size drawn from `[start, n)`,
in depth-first (lexicographic) order. -/
def combine (n : Nat) : Nat → Nat → List (List Nat)
  | _start, 0 => [[]]
  | start, size + 1 =>
    (List.range' start (n - start)).flatMap
      (fun i => (combine n (i + 1) size).map (fun rest => i :: rest))

/-- Function `getCombinationIndices` (src/index.ts lines 939–963): all index
combinations of `size` out of `n`, contiguous runs first. -/
def getCombinationIndices (n size : Nat) : List (List Nat) :=
  let all := combine n 0 size
  all.filter isContiguous ++ all.filter (fun l => !isContiguous l)

/-- The sizes `n, n-1, …, 1` iterated by `generateCombinations`. -/
def sizesDesc (n : Nat) : List Nat :=
  ((List.range n).reverse).map (fun k => k + 1)

/-- Function `generateCombinations` (src/index.ts lines 923–936). -/
def generateCombinations (terms : List String) : List (List String)  :=
  if terms.length ≤ 1 then [terms]
  else
    (sizesDesc terms.length).flatMap (fun size =>
      (getCombinationIndices terms.length size).map
        (fun idx => idx.map (fun i => terms.getD i "")))

/-- All index combinations emitted across the size loop, size `n` down to 1. -/
def allCombinationIndices (n : Nat) : List (List Nat) :=
  (sizesDesc n).flatMap (getCombinationIndices n)

/-- One candidate record of the primary taxonomy or the 510(k) corpus:
the fields the resolution engine reads. -/
structure DRecord where
  device_name : String
  definition : String
  product_code : String
deriving DecidableEq, Repr

/-- An openFDA response as the engine observes it: the `error` flag and
the `results` array (empty for an absent array). -/
structure OResp where
  error : Bool
  results : List DRecord
deriving DecidableEq, Repr

/-- Test `!data.error && data.results && data.results.length > 0`. -/
def okResp (r : OResp) : Bool := !r.error && !r.results.isEmpty

/-- Match set of one original term in `scoreResults`: the lowercased term
plus the lowercased split words of its synonym expansion, if any. -/
def matchStrings (t : String) : List String :=
  let lower := strLower t
  let expansions :=
    match synLookup lower with
    | some syns => syns.flatMap (fun s => splitWs (strLower s))
    | none => []
  lower :: expansions

/-- JS `text.includes(s)`. -/
def strIncludes (text s : String) : Bool := decide (s.toList <:+: text.toList)

/-- The searchable text of a record: lowercased name, a space, lowercased
definition. -/
def recText (r : DRecord) : String :=
  strLower r.device_name ++ " " ++ strLower r.definition

/-- Number of original terms covered by one record. -/
def coveredCount (originalTerms : List String) (r : DRecord) : Nat :=
  (originalTerms.map matchStrings).countP
    (fun ms => ms.any (fun s => strIncludes (recText r) s))

/-- Function `scoreResults` (src/index.ts lines 968–992), with exact rational
arithmetic in place of JS floats. -/
def scoreResults (results : List DRecord) (originalTerms : List String) : ℚ :=
  if results.isEmpty || originalTerms.isEmpty then 0
  else
    ((results.map
        (fun r => (coveredCount originalTerms r : ℚ) / originalTerms.length)).sum)
      / results.length

/-- The `FILLER_WORDS` set of `classify_device`. -/
def FILLER_WORDS : List String :=
  [ "a", "an", "the", "for", "of", "in", "on", "to", "and", "or", "is", "it",
    "what", "how", "which", "my", "with", "from", "that", "this",
    "fda", "class", "device", "medical", "need", "does" ]

/-- Filter `terms.filter((t) => !FILLER_WORDS.has(t.toLowerCase()) && t.length > 1)`. -/
def meaningfulOf (terms : List String) : List String :=
  terms.filter (fun t => !(FILLER_WORDS.contains (strLower t)) && decide (1 < t.length))

/-- Selection `meaningful.length >= 2 ? meaningful : terms`. -/
def termsToUse (terms : List String) : List String :=
  if 2 ≤ (meaningfulOf terms).length then meaningfulOf terms else terms

/-- The combination reordering of `classify_device`: full length first,
then sizes 2–3, then sizes above 3, then singles. -/
def combosFor (tu : List String) : List (List String) :=
  let allCombos := generateCombinations tu
  let fullLength := allCombos.filter (fun c => c.length == tu.length)
  let shortCombos := allCombos.filter
    (fun c => decide (2 ≤ c.length) && decide (c.length ≤ 3) && decide (c.length < tu.length))
  let mediumCombos := allCombos.filter
    (fun c => decide (3 < c.length) && decide (c.length < tu.length))
  let singles := allCombos.filter (fun c => c.length == 1)
  fullLength ++ shortCombos ++ mediumCombos ++ singles

/-- The two searchable classification fields, in the code's priority order. -/
inductive QField where
  | device_name
  | definitionField
deriving DecidableEq, Repr

/-- One external query attempt of the broadening loop: the combination,
the length of the current term-set's `termsToUse`, and the field. -/
structure Attempt where
  combo : List String
  tuLen : Nat
  field : QField
deriving DecidableEq, Repr

/-- The attempts of one term-set, in issue order: for each combination,
`device_name` then `definition`. -/
def attemptsFor (ts : List String) : List Attempt :=
  let tu := termsToUse ts
  (combosFor tu).flatMap (fun c =>
    [⟨c, tu.length, QField.device_name⟩, ⟨c, tu.length, QField.definitionField⟩])

/-- Space-joined form used by the expansion test of `classify_device`. -/
def joinSpace (l : List String) : String := String.intercalate " " l

/-- The ordered term-sets: expanded first when it differs from the
original, then the original. -/
def termSetsOf (orig : List String) : List (List String) :=
  let expanded := expandSynonyms orig
  if joinSpace expanded ≠ joinSpace orig then [expanded, orig] else [orig]

/-- All attempts of a top-level resolution's broadening loop, in order. -/
def broadenAttempts (orig : List String) : List Attempt :=
  (termSetsOf orig).flatMap attemptsFor

/-- The primary classification search port, abstracted over the field and
the combination queried. -/
abbrev COracle := QField → List String → OResp

/-- Constant `RELEVANCE_THRESHOLD = 0.4`. -/
def RELEVANCE_THRESHOLD : ℚ := 2 / 5

/-- Constant `MAX_API_CALLS = 30`. -/
def MAX_API_CALLS : Nat := 30

/-- The `bestWeak` update of one non-strong attempt. -/
def weakStep (oracle : COracle) (orig : List String)
    (bw : Option (List DRecord × ℚ)) (a : Attempt) : Option (List DRecord × ℚ) :=
  let r := oracle a.field a.combo
  if okResp r then
    let score := scoreResults r.results orig
    match bw with
    | none => some (r.results, score)
    | some b => if b.2 < score then some (r.results, score) else bw
  else bw

/-- Does this attempt return a strong result: a non-empty, non-error
response that is full length or meets the relevance threshold? -/
def strongHit (oracle : COracle) (orig : List String) (a : Attempt) : Bool :=
  let r := oracle a.field a.combo
  okResp r &&
    (decide (a.tuLen ≤ a.combo.length) ||
     decide (RELEVANCE_THRESHOLD ≤ scoreResults r.results orig))

/-- The broadening loop of `classify_device` (src/index.ts lines
1091–1135), flattened over term-sets, combinations and fields: returns
the strong result (if any), the best weak candidate, and the number of
external calls issued. -/
def broadenLoop (oracle : COracle) (orig : List String) :
    List Attempt → Nat → Option (List DRecord × ℚ) →
    Option (List DRecord) × Option (List DRecord × ℚ) × Nat
  | [], calls, bw => (none, bw, calls)
  | a :: rest, calls, bw =>
    if MAX_API_CALLS ≤ calls then (none, bw, calls)
    else
      let r := oracle a.field a.combo
      if okResp r ∧ (a.tuLen ≤ a.combo.length ∨
          RELEVANCE_THRESHOLD ≤ scoreResults r.results orig) then
        (some r.results, bw, calls + 1)
      else
        broadenLoop oracle orig rest (calls + 1) (weakStep oracle orig bw a)

/-- The `GENERIC_510K_TERMS` set of `bridgeVia510k`. -/
def GENERIC_510K_TERMS : List String :=
  [ "artificial", "intelligence", "machine", "learning", "software", "device",
    "system", "detection", "screening", "diagnosis", "diagnostic", "analysis",
    "monitor", "automated", "computer", "digital", "algorithm", "image",
    "processing", "aided", "based", "clinical", "decision", "support" ]

/-- Regex `/^[A-Z]{3}$/i` applied to an uppercased product code. -/
def isProductCode (s : String) : Bool :=
  s.length == 3 && s.toList.all Char.isAlpha

/-- One entry of the `productCodes` map: code, example device names,
occurrence count. -/
structure CodeInfo where
  code : String
  deviceNames : List String
  count : Nat
deriving DecidableEq, Repr

/-- Folding one 510(k) record into the `productCodes` map (insertion
order preserved, as for a JS `Map`). -/
def addCode (acc : List CodeInfo) (r : DRecord) : List CodeInfo :=
  let pc := strUpper r.product_code
  if pc == "" || !isProductCode pc then acc
  else if acc.any (fun ci => ci.code == pc) then
    acc.map (fun ci =>
      if ci.code == pc then
        { ci with
          count := ci.count + 1
          deviceNames :=
            if r.device_name ≠ "" ∧ ¬ ci.deviceNames.contains r.device_name then
              ci.deviceNames ++ [r.device_name]
            else ci.deviceNames }
      else ci)
  else
    acc ++ [{ code := pc
              deviceNames := if r.device_name == "" then [] else [r.device_name]
              count := 1 }]

/-- The distinct valid product codes of a 510(k) result list, with
example names and counts, in order of first appearance. -/
def collectCodes (rs : List DRecord) : List CodeInfo := rs.foldl addCode []

/-- The candidate 510(k) query set of one term-set: the first 8
combinations of size ≥ 2, plus each non-generic single term of length ≥ 5. -/
def bridgeCandidates (terms : List String) : List (List String) :=
  let medicalTerms := terms.filter (fun t => !(GENERIC_510K_TERMS.contains (strLower t)))
  let combos := generateCombinations terms
  let pairAndUp := (combos.filter (fun c => decide (2 ≤ c.length))).take 8
  let medicalSingles := (medicalTerms.filter (fun t => decide (5 ≤ t.length))).map
    (fun t => [t])
  pairAndUp ++ medicalSingles

/-- The payload of a successful bridge: resolved classification records,
the product-code map, and up to five example 510(k) records. -/
structure BridgedInfo where
  classificationResults : List DRecord
  productCodes : List CodeInfo
  examples : List DRecord
deriving DecidableEq, Repr

/-- The 510(k) search port, abstracted over the combination queried. -/
abbrev KOracle := List String → OResp

/-- The classification-by-product-code lookup port. -/
abbrev LOracle := String → OResp

/-- The dedup key `combo.join("+")` used by `seen510k`. -/
def joinPlus (c : List String) : String := String.intercalate "+" c

/-- The candidate loop of `bridgeVia510k` (src/index.ts lines 1205–1296),
flattened over the two term-sets: returns the bridged outcome (if any),
the list of 510(k) queries actually issued, and the number of external
calls made (510(k) searches plus classification lookups). -/
def bridgeLoop (k510 : KOracle) (lup : LOracle) :
    List (List String) → List String → List (List String) → Nat →
    Option BridgedInfo × List (List String) × Nat
  | [], _seen, issued, calls => (none, issued, calls)
  | c :: rest, seen, issued, calls =>
    if seen.contains (joinPlus c) then bridgeLoop k510 lup rest seen issued calls
    else
      let seen' := joinPlus c :: seen
      let r := k510 c
      if okResp r then
        let codes := collectCodes r.results
        if codes.isEmpty then bridgeLoop k510 lup rest seen' (issued ++ [c]) (calls + 1)
        else
          let classResults := codes.flatMap (fun ci =>
            let cr := lup ci.code
            if okResp cr then cr.results else [])
          if classResults.isEmpty then
            bridgeLoop k510 lup rest seen' (issued ++ [c]) (calls + 1 + codes.length)
          else
            (some ⟨classResults, codes, r.results.take 5⟩, issued ++ [c],
              calls + 1 + codes.length)
      else bridgeLoop k510 lup rest seen' (issued ++ [c]) (calls + 1)

/-- Key-based first-seen deduplication of a candidate sequence: the
queries `bridgeVia510k` actually issues when no candidate succeeds. -/
def dedupByKey (seen : List String) : List (List String) → List (List String)
  | [] => []
  | c :: rest =>
    if seen.contains (joinPlus c) then dedupByKey seen rest
    else c :: dedupByKey (joinPlus c :: seen) rest

/-- The flattened candidate sequence of `bridgeVia510k`: the candidates
of the expanded term-set followed by those of the original term-set
(`seen510k` is shared across both). -/
def bridgeAllCandidates (orig : List String) : List (List String) :=
  bridgeCandidates (expandSynonyms orig) ++ bridgeCandidates orig

/-- Function `bridgeVia510k` on its two term-sets. -/
def bridgeVia510k (k510 : KOracle) (lup : LOracle) (orig : List String) :
    Option BridgedInfo × List (List String) × Nat :=
  bridgeLoop k510 lup (bridgeAllCandidates orig) [] [] 0

/-- The `aiTerms` keyword set of the suggestion fallback. -/
def AI_TERMS : List String :=
  [ "ai", "ml", "algorithm", "machine learning", "deep learning",
    "artificial intelligence", "samd", "software" ]

/-- The AI/SaMD suggestion template. -/
def aiSuggestions : List String :=
  [ "Many AI/ML-enabled devices are classified under generic product codes:",
    "  - **QIH** — Automated Radiological Image Processing Software",
    "  - **QDQ** — Radiological Computer Assisted Detection/Diagnosis Software",
    "  - **MYN** — Analyzer, Medical Image",
    "  - **QBS** — Radiological CAD Software For Fracture",
    "  - **QNP** — Gastrointestinal Lesion Software Detection System",
    "  - **QJU** — Image Acquisition/Optimization Guided By AI",
    "",
    "Try: `classify_device` with one of these product codes, or `search_510k` with applicant/device_name to find specific cleared products." ]

/-- The generic suggestion template. -/
def genericSuggestions : List String :=
  [ "Suggestions:",
    "  - Try shorter or broader medical terms (FDA uses formal names like \"Oximeter, Pulse\" not \"pulse oximeter\")",
    "  - Use `search_510k` with `device_name` or `applicant` to find specific cleared devices",
    "  - If you know the company, search by applicant name in `search_510k`" ]

/-- Suggestion selection: the AI template when any original term is in
`aiTerms`, the generic one otherwise. -/
def suggestionsFor (origTerms : List String) : List String :=
  if origTerms.any (fun t => AI_TERMS.contains (strLower t)) then aiSuggestions
  else genericSuggestions

/-- The tagged outcome of the `classify_device` query path. -/
inductive Outcome where
  | strong (rs : List DRecord)
  | weak (rs : List DRecord)
  | bridged (info : BridgedInfo)
  | unresolved (query : String) (suggestions : List String)
deriving DecidableEq, Repr

/-- The full `classify_device` query path (src/index.ts lines 1063–1184):
broadening loop, weak fallback, 510(k) bridge, suggestion fallback.
Returns the outcome and the total number of external search invocations. -/
def resolveFromTerms (co : COracle) (k510 : KOracle) (lup : LOracle)
    (query : String) (orig : List String) : Outcome × Nat :=
  match broadenLoop co orig (broadenAttempts orig) 0 none with
  | (some rs, _, calls) => (Outcome.strong rs, calls)
  | (none, some b, calls) => (Outcome.weak b.1, calls)
  | (none, none, calls) =>
    match bridgeVia510k k510 lup orig with
    | (some info, _, bcalls) => (Outcome.bridged info, calls + bcalls)
    | (none, _, bcalls) =>
        (Outcome.unresolved query (suggestionsFor orig), calls + bcalls)

/-- Modelled from the spec (§4.2, claim C4's reading): remove exactly the
filler words, and use the filtered sequence iff at least two non-filler
terms remain. Stated for comparison with the source's `termsToUse`. -/
def claimTermsToUse (terms : List String) : List String :=
  let nonFiller := terms.filter (fun t => !(FILLER_WORDS.contains (strLower t)))
  if 2 ≤ nonFiller.length then nonFiller else terms

/-- A primary search port that fails (e.g. is rate-limited) on every
attempt. -/
def errClassOracle : COracle := fun _ _ => ⟨true, []⟩

/-- A 510(k) search port that fails on every attempt. -/
def err510kOracle : KOracle := fun _ => ⟨true, []⟩

/-- A code-lookup port that fails on every attempt. -/
def errLookupOracle : LOracle := fun _ => ⟨true, []⟩

/-- A 510(k) search port that succeeds with zero results on every attempt. -/
def empty510kOracle : KOracle := fun _ => ⟨false, []⟩

/-! Section: Synonym expansion: helper lemmas -/

lemma lookup_mem : ∀ {l : List (String × List String)} {k : String}
    {v : List String}, List.lookup k l = some v → (k, v) ∈ l
  | [], _, _, h => by simp at h
  | (a, b) :: ps, k, v, h => by
    simp only [List.lookup] at h
    cases hk : (k == a) with
    | true =>
      rw [hk] at h
      simp only [Option.some.injEq] at h
      subst h
      exact (eq_of_beq hk) ▸ List.mem_cons_self _ _
    | false =>
      rw [hk] at h
      exact List.mem_cons_of_mem _ (lookup_mem h)

lemma splitWs_values_ne_nil : ∀ p ∈ SYNONYMS, p.2.flatMap splitWs ≠ [] := by decide

lemma wordsOf_ne_nil (t : String) : wordsOf t ≠ [] := by
  unfold wordsOf
  cases h : synLookup (strLower t) with
  | none => simp
  | some syns => exact splitWs_values_ne_nil _ (lookup_mem h)

lemma expandStep_eq (st : List String × List String) (t : String) :
    expandStep st t = (wordsOf t).foldl addWord st := by
  unfold expandStep wordsOf
  cases h : synLookup (strLower t) <;> simp

lemma foldl_expandStep_eq (terms : List String) :
    ∀ st, terms.foldl expandStep st = (rawWords terms).foldl addWord st := by
  induction terms with
  | nil => intro st; simp [rawWords]
  | cons t ts ih =>
    intro st
    have hraw : rawWords (t :: ts) = wordsOf t ++ rawWords ts := by
      simp [rawWords]
    rw [List.foldl_cons, hraw, List.foldl_append, expandStep_eq, ih]

lemma foldl_addWord_eq (ws : List String) :
    ∀ seen out, ws.foldl addWord (seen, out) =
      (seenFold seen ws, out ++ dedupCaseGo seen ws) := by
  induction ws with
  | nil => intro seen out; simp [seenFold, dedupCaseGo]
  | cons w ws ih =>
    intro seen out
    by_cases hm : strLower w ∈ seen
    · simp [addWord, hm, seenFold, dedupCaseGo, ih]
    · simp [addWord, hm, seenFold, dedupCaseGo, ih]

lemma expand_eq_dedup (terms : List String) :
    expandSynonyms terms = dedupCase (rawWords terms) := by
  unfold expandSynonyms dedupCase
  rw [foldl_expandStep_eq, foldl_addWord_eq]
  simp

lemma dedupCaseGo_lower_nodup (ws : List String) :
    ∀ seen, ((dedupCaseGo seen ws).map strLower).Nodup
      ∧ ∀ w ∈ dedupCaseGo seen ws, strLower w ∉ seen := by
  induction ws with
  | nil => intro seen; simp [dedupCaseGo]
  | cons w ws ih =>
    intro seen
    by_cases hm : strLower w ∈ seen
    · simpa [dedupCaseGo, hm] using ih seen
    · obtain ⟨h1, h2⟩ := ih (strLower w :: seen)
      rw [show dedupCaseGo seen (w :: ws) =
          w :: dedupCaseGo (strLower w :: seen) ws by simp [dedupCaseGo, hm]]
      constructor
      · simp only [List.map_cons, List.nodup_cons]
        refine ⟨?_, h1⟩
        intro hmem
        obtain ⟨u, hu, hequ⟩ := List.mem_map.mp hmem
        exact h2 u hu (by rw [hequ]; exact List.mem_cons_self _ _)
      · intro u hu
        cases List.mem_cons.mp hu with
        | inl he => subst he; exact hm
        | inr hu' =>
          exact fun hin => h2 u hu' (List.mem_cons_of_mem _ hin)

lemma expand_lower_nodup (terms : List String) :
    ((expandSynonyms terms).map strLower).Nodup := by
  rw [expand_eq_dedup]; exact (dedupCaseGo_lower_nodup _ _).1

/-! Section: Claims C7 and C10 -/

/-- Claim C7: a term whose lowercase form is absent from the synonym table
expands to itself; for every input the output contains no two
case-insensitively equal words, and equals the case-insensitive
first-seen deduplication of the raw replacement stream. -/
theorem c7_expandSynonyms_dedup :
    (∀ x : String, synLookup (strLower x) = none → expandSynonyms [x] = [x])
    ∧ (∀ terms : List String, ((expandSynonyms terms).map strLower).Nodup)
    ∧ (∀ terms : List String, expandSynonyms terms = dedupCase (rawWords terms)) := by
  refine ⟨?_, expand_lower_nodup, expand_eq_dedup⟩
  intro x h
  simp [expandSynonyms, expandStep, h, addWord]

/-- Witness for C7 at the table-absent term `"zzz"`. -/
theorem c7_expandSynonyms_dedup_witness :
    synLookup (strLower "zzz") = none ∧ expandSynonyms ["zzz"] = ["zzz"] :=
  ⟨by decide, c7_expandSynonyms_dedup.1 "zzz" (by decide)⟩

/-- Claim C10: expanding a non-empty term sequence yields a non-empty
sequence, whose head is contributed by the first input term: itself when
absent from the table, otherwise the first word of its replacement
phrases (which are never empty). -/
theorem c10_expandSynonyms_nonempty (t : String) (ts : List String) :
    expandSynonyms (t :: ts) ≠ []
    ∧ (expandSynonyms (t :: ts)).head? = (wordsOf t).head?
    ∧ wordsOf t ≠ [] := by
  have hw := wordsOf_ne_nil t
  obtain ⟨w, ws, hws⟩ : ∃ w ws, wordsOf t = w :: ws := by
    cases h : wordsOf t with
    | nil => exact absurd h hw
    | cons a b => exact ⟨a, b, rfl⟩
  have heq : expandSynonyms (t :: ts) =
      dedupCaseGo [] (wordsOf t ++ rawWords ts) := by
    rw [expand_eq_dedup]
    have : rawWords (t :: ts) = wordsOf t ++ rawWords ts := by simp [rawWords]
    rw [this]; rfl
  rw [heq, hws]
  refine ⟨by simp [dedupCaseGo], by simp [dedupCaseGo], by simp⟩

/-! Section: Claim C4 -/

/-- Claim C4 (counterexample): on `["ab", "cd", "x"]` the code's filter also
removes the non-filler one-character term `"x"`, while the claim's rule
(remove only filler words) keeps it, so the two differ. -/
theorem c4_counterexample :
    termsToUse ["ab", "cd", "x"] = ["ab", "cd"]
    ∧ claimTermsToUse ["ab", "cd", "x"] = ["ab", "cd", "x"]
    ∧ termsToUse ["ab", "cd", "x"] ≠ claimTermsToUse ["ab", "cd", "x"] := by decide

/-- Claim C4 (amended): the broadening loop removes filler words and
one-character terms, and uses the filtered sequence iff at least two such
meaningful terms remain; the sequence actually used is drawn from the
input, contains every non-filler term of length > 1 whenever the filter
applies, and is never empty for a non-empty input. -/
theorem c4_termsToUse_spec (terms : List String) :
    (2 ≤ (meaningfulOf terms).length → termsToUse terms = meaningfulOf terms)
    ∧ ((meaningfulOf terms).length < 2 → termsToUse terms = terms)
    ∧ (∀ t ∈ termsToUse terms, t ∈ terms)
    ∧ (terms ≠ [] → termsToUse terms ≠ [])
    ∧ (∀ t ∈ terms, FILLER_WORDS.contains (strLower t) = false → 1 < t.length →
        t ∈ termsToUse terms) := by
  refine ⟨?_, ?_, ?_, ?_, ?_⟩
  · intro h; simp [termsToUse, h]
  · intro h; simp [termsToUse, Nat.not_le.mpr h]
  · intro t ht
    unfold termsToUse at ht
    split at ht
    · exact List.mem_of_mem_filter ht
    · exact ht
  · intro hne
    unfold termsToUse
    split
    · next h =>
      intro hnil
      rw [hnil] at h
      simp at h
    · exact hne
  · intro t ht hf hl
    unfold termsToUse
    split
    · exact List.mem_filter.mpr ⟨ht, by rw [hf]; simp [hl]⟩
    · exact ht

/-- Witness for C4's amended theorem at `["ab", "cd", "x"]`. -/
theorem c4_termsToUse_spec_witness :
    termsToUse ["ab", "cd", "x"] = meaningfulOf ["ab", "cd", "x"]
    ∧ "ab" ∈ termsToUse ["ab", "cd", "x"] :=
  ⟨(c4_termsToUse_spec _).1 (by decide),
   (c4_termsToUse_spec _).2.2.2.2 "ab" (by decide) (by decide) (by decide)⟩

/-! Section: Claim C6: the relevance scorer -/

lemma coveredCount_le (ts : List String) (r : DRecord) :
    coveredCount ts r ≤ ts.length := by
  unfold coveredCount
  calc ((ts.map matchStrings).countP _) ≤ (ts.map matchStrings).length :=
        List.countP_le_length _
    _ = ts.length := List.length_map _ _

/-- Claim C6: `scoreResults` returns 0 on an empty result list or term list;
otherwise it is the mean over results of (covered terms / total terms),
hence always within [0, 1], and exactly 1 when every original term's
match set has a member inside every candidate's searchable text. -/
theorem c6_scoreResults_spec (rs : List DRecord) (ts : List String) :
    scoreResults rs [] = 0
    ∧ scoreResults [] ts = 0
    ∧ 0 ≤ scoreResults rs ts
    ∧ scoreResults rs ts ≤ 1
    ∧ (rs ≠ [] → ts ≠ [] →
        scoreResults rs ts =
          (rs.map (fun r => (coveredCount ts r : ℚ) / ts.length)).sum / rs.length)
    ∧ (rs ≠ [] → ts ≠ [] →
        (∀ r ∈ rs, ∀ t ∈ ts,
          (matchStrings t).any (fun s => strIncludes (recText r) s) = true) →
        scoreResults rs ts = 1) := by
  refine ⟨by simp [scoreResults], by simp [scoreResults], ?_, ?_, ?_, ?_⟩
  · unfold scoreResults
    split
    · exact le_refl 0
    · next h =>
      simp only [Bool.or_eq_true, not_or, List.isEmpty_iff] at h
      have htlen : (0:ℚ) < ts.length := by
        exact_mod_cast List.length_pos.mpr h.2
      have hrlen : (0:ℚ) < rs.length := by
        exact_mod_cast List.length_pos.mpr h.1
      apply div_nonneg _ (le_of_lt hrlen)
      apply List.sum_nonneg
      intro x hx
      obtain ⟨r, _, rfl⟩ := List.mem_map.mp hx
      positivity
  · unfold scoreResults
    split
    · norm_num
    · next h =>
      simp only [Bool.or_eq_true, not_or, List.isEmpty_iff] at h
      have htlen : (0:ℚ) < ts.length := by
        exact_mod_cast List.length_pos.mpr h.2
      have hrlen : (0:ℚ) < rs.length := by
        exact_mod_cast List.length_pos.mpr h.1
      rw [div_le_one hrlen]
      have hub : ∀ x ∈ rs.map (fun r => (coveredCount ts r : ℚ) / ts.length),
          x ≤ 1 := by
        intro x hx
        obtain ⟨r, _, rfl⟩ := List.mem_map.mp hx
        apply div_le_one_of_le₀ _ (le_of_lt htlen)
        exact_mod_cast coveredCount_le ts r
      calc (rs.map (fun r => (coveredCount ts r : ℚ) / ts.length)).sum
          ≤ (rs.map (fun r => (coveredCount ts r : ℚ) / ts.length)).length • (1:ℚ) :=
            List.sum_le_card_nsmul _ 1 hub
        _ = rs.length := by simp
  · intro hrs hts
    simp [scoreResults, hrs, hts]
  · intro hrs hts hcov
    have htlen : (0:ℚ) < ts.length := by
      exact_mod_cast List.length_pos.mpr hts
    have hrlen : (rs.length : ℚ) ≠ 0 := by
      exact_mod_cast fun h => hrs (List.length_eq_zero.mp h)
    have hone : ∀ r ∈ rs, (coveredCount ts r : ℚ) / ts.length = 1 := by
      intro r hr
      have hcnt : coveredCount ts r = ts.length := by
        unfold coveredCount
        rw [List.countP_eq_length.mpr, List.length_map]
        intro ms hms
        obtain ⟨t, ht, rfl⟩ := List.mem_map.mp hms
        exact hcov r hr t ht
      rw [hcnt]
      exact div_self (ne_of_gt htlen)
    unfold scoreResults
    rw [if_neg (by simp [hrs, hts])]
    rw [List.map_congr_left hone]
    simp [List.map_const', hrlen, div_self]

/-- Witness for C6: a single fully covering candidate scores exactly 1. -/
theorem c6_scoreResults_spec_witness :
    scoreResults [⟨"Electrocardiograph Ambulatory", "ECG analysis", "DXH"⟩]
        ["ecg"] = 1 :=
  (c6_scoreResults_spec _ _).2.2.2.2.2 (by decide) (by decide) (by decide)

/-! Section: Claim C2: the combination generator -/

lemma mem_combine {n : Nat} : ∀ {size start : Nat} {l : List Nat},
    l ∈ combine n start size ↔
      (l.length = size ∧ l.Pairwise (· < ·) ∧ ∀ i ∈ l, start ≤ i ∧ i < n) := by
  intro size
  induction size with
  | zero =>
    intro start l
    simp only [combine, List.mem_singleton]
    constructor
    · rintro rfl; simp
    · rintro ⟨h, _, _⟩; exact List.length_eq_zero.mp h
  | succ k ih =>
    intro start l
    constructor
    · intro hl
      simp only [combine, List.mem_flatMap, List.mem_map] at hl
      obtain ⟨i, hi, t, ht, rfl⟩ := hl
      rw [List.mem_range'_1] at hi
      obtain ⟨ht1, ht2, ht3⟩ := ih.mp ht
      refine ⟨by simp [ht1], ?_, ?_⟩
      · rw [List.pairwise_cons]
        exact ⟨fun j hj => by have := (ht3 j hj).1; omega, ht2⟩
      · intro j hj
        rcases List.mem_cons.mp hj with rfl | hj'
        · omega
        · have := ht3 j hj'; omega
    · rintro ⟨hlen, hpw, hbound⟩
      cases l with
      | nil => simp at hlen
      | cons i t =>
        simp only [combine, List.mem_flatMap, List.mem_map]
        refine ⟨i, ?_, t, ?_, rfl⟩
        · rw [List.mem_range'_1]
          have := hbound i (List.mem_cons_self _ _)
          omega
        · apply ih.mpr
          refine ⟨by simpa using hlen, (List.pairwise_cons.mp hpw).2, ?_⟩
          intro j hj
          have hij := (List.pairwise_cons.mp hpw).1 j hj
          have := hbound j (List.mem_cons_of_mem _ hj)
          omega

lemma nodup_combine {n : Nat} : ∀ (size start : Nat), (combine n start size).Nodup := by
  intro size
  induction size with
  | zero => intro start; simp [combine]
  | succ k ih =>
    intro start
    rw [combine, List.nodup_flatMap]
    constructor
    · intro i _
      exact (ih (i + 1)).map (fun a b => by simp)
    · have hnd : (List.range' start (n - start)).Nodup :=
        List.nodup_range' start (n - start)
      refine hnd.imp ?_
      intro i j hij
      intro l hl1 hl2
      obtain ⟨t1, _, rfl⟩ := List.mem_map.mp hl1
      obtain ⟨t2, _, h12⟩ := List.mem_map.mp hl2
      injection h12 with h1' h2'
      exact hij h1'.symm

lemma combine_succ_split {n start k : Nat} (h : start < n) :
    combine n start (k + 1) =
      (combine n (start + 1) k).map (fun rest => start :: rest)
        ++ combine n (start + 1) (k + 1) := by
  conv_lhs => rw [combine]
  conv_rhs => rw [combine]
  rw [show n - start = (n - (start + 1)) + 1 by omega, List.range'_succ]
  simp

lemma length_combine (n : Nat) : ∀ (m size start : Nat), start + m = n →
    (combine n start size).length = m.choose size := by
  intro m
  induction m with
  | zero =>
    intro size start h
    cases size with
    | zero => simp [combine]
    | succ k =>
      rw [combine]
      simp [show n - start = 0 by omega]
  | succ m ih =>
    intro size start h
    cases size with
    | zero => simp [combine]
    | succ k =>
      rw [combine_succ_split (by omega), List.length_append, List.length_map,
        ih k (start + 1) (by omega), ih (k + 1) (start + 1) (by omega),
        Nat.choose_succ_succ]

lemma getCI_perm (n size : Nat) :
    (getCombinationIndices n size).Perm (combine n 0 size) :=
  List.filter_append_perm _ _

lemma getCI_length (n size : Nat) :
    (getCombinationIndices n size).length = n.choose size :=
  (getCI_perm n size).length_eq.trans (length_combine n n size 0 (by omega))

lemma getCI_nodup (n size : Nat) : (getCombinationIndices n size).Nodup :=
  ((getCI_perm n size).nodup_iff).mpr (nodup_combine size 0)

lemma mem_getCI {n size : Nat} {l : List Nat} :
    l ∈ getCombinationIndices n size ↔
      (l.length = size ∧ l.Pairwise (· < ·) ∧ ∀ i ∈ l, i < n) := by
  rw [(getCI_perm n size).mem_iff, mem_combine]
  simp

lemma mem_sizesDesc {n s : Nat} : s ∈ sizesDesc n ↔ 1 ≤ s ∧ s ≤ n := by
  simp only [sizesDesc, List.mem_map, List.mem_reverse, List.mem_range]
  constructor
  · rintro ⟨a, ha, rfl⟩; omega
  · rintro ⟨h1, h2⟩; exact ⟨s - 1, by omega, by omega⟩

lemma sizesDesc_pairwise_gt (n : Nat) : (sizesDesc n).Pairwise (· > ·) := by
  unfold sizesDesc
  apply List.Pairwise.map
  · exact fun a b (h : a > b) => by omega
  · exact List.pairwise_reverse.mpr (by
      simpa using List.pairwise_lt_range n)

lemma pairwise_flatMap' {α β : Type _} {R : β → β → Prop} {f : α → List β}
    {l : List α} (h1 : ∀ a ∈ l, (f a).Pairwise R)
    (h2 : l.Pairwise (fun a b => ∀ x ∈ f a, ∀ y ∈ f b, R x y)) :
    (l.flatMap f).Pairwise R := by
  have : l.flatMap f = (l.map f).flatten := by
    simp [List.flatMap_def]
  rw [this, List.pairwise_flatten]
  constructor
  · intro l' hl'
    obtain ⟨a, ha, rfl⟩ := List.mem_map.mp hl'
    exact h1 a ha
  · rw [List.pairwise_map]
    exact h2

lemma sum_map_range (f : Nat → Nat) (n : Nat) :
    ((List.range n).map f).sum = ∑ i ∈ Finset.range n, f i := by
  induction n with
  | zero => simp
  | succ m ih =>
    rw [List.range_succ, List.map_append, List.sum_append,
      Finset.sum_range_succ, ih]
    simp

lemma allCI_length (n : Nat) :
    (allCombinationIndices n).length = 2 ^ n - 1 := by
  unfold allCombinationIndices
  rw [List.length_flatMap]
  have h1 : (sizesDesc n).map (List.length ∘ getCombinationIndices n)
      = (sizesDesc n).map (fun s => n.choose s) :=
    List.map_congr_left (fun s _ => getCI_length n s)
  rw [h1]
  unfold sizesDesc
  rw [List.map_map, List.map_reverse, List.sum_reverse]
  have h5 : (List.map ((fun s => n.choose s) ∘ fun k => k + 1)
        (List.range n)).sum
      = ((List.range n).map (fun k => n.choose (k + 1))).sum := by
    rfl
  rw [h5, sum_map_range (fun k => n.choose (k + 1)) n]
  have h3 := Nat.sum_range_choose n
  have h4 := Finset.sum_range_succ' (fun i => n.choose i) n
  simp only [Nat.choose_zero_right] at h4
  omega

lemma allCI_nodup (n : Nat) : (allCombinationIndices n).Nodup := by
  unfold allCombinationIndices
  rw [List.nodup_flatMap]
  refine ⟨fun s _ => getCI_nodup n s, ?_⟩
  apply List.Pairwise.imp ?_ (sizesDesc_pairwise_gt n)
  intro s1 s2 (h : s1 > s2) l hl1 hl2
  have e1 := (mem_getCI.mp hl1).1
  have e2 := (mem_getCI.mp hl2).1
  omega

lemma length_le_of_sorted_lt {n : Nat} {l : List Nat}
    (hpw : l.Pairwise (· < ·)) (hb : ∀ i ∈ l, i < n) : l.length ≤ n := by
  have hnd : l.Nodup := hpw.imp (fun h => ne_of_lt h)
  have h1 : l.toFinset.card = l.length := List.toFinset_card_of_nodup hnd
  have h2 : l.toFinset ⊆ Finset.range n := by
    intro i hi
    rw [Finset.mem_range]
    exact hb i (List.mem_toFinset.mp hi)
  have := Finset.card_le_card h2
  simpa [h1, Finset.card_range] using this

lemma mem_allCI {n : Nat} {l : List Nat} :
    l ∈ allCombinationIndices n ↔
      l ≠ [] ∧ l.Pairwise (· < ·) ∧ ∀ i ∈ l, i < n := by
  unfold allCombinationIndices
  rw [List.mem_flatMap]
  constructor
  · rintro ⟨s, hs, hl⟩
    obtain ⟨hlen, hpw, hb⟩ := mem_getCI.mp hl
    have hs' := mem_sizesDesc.mp hs
    refine ⟨?_, hpw, hb⟩
    intro hnil
    rw [hnil] at hlen
    simp at hlen
    omega
  · rintro ⟨hne, hpw, hb⟩
    refine ⟨l.length, mem_sizesDesc.mpr ⟨?_, ?_⟩, mem_getCI.mpr ⟨rfl, hpw, hb⟩⟩
    · exact List.length_pos.mpr hne
    · exact length_le_of_sorted_lt hpw hb

lemma allCI_length_sorted (n : Nat) :
    (allCombinationIndices n).Pairwise (fun a b => b.length ≤ a.length) := by
  unfold allCombinationIndices
  apply pairwise_flatMap'
  · intro s _
    apply List.pairwise_of_forall_mem_list
    intro a ha b hb
    rw [(mem_getCI.mp ha).1, (mem_getCI.mp hb).1]
  · apply List.Pairwise.imp ?_ (sizesDesc_pairwise_gt n)
    intro s1 s2 (h : s1 > s2) x hx y hy
    rw [(mem_getCI.mp hx).1, (mem_getCI.mp hy).1]
    omega

lemma allCI_contiguous_first (n : Nat) :
    (allCombinationIndices n).Pairwise
      (fun a b => a.length = b.length →
        isContiguous b = true → isContiguous a = true) := by
  unfold allCombinationIndices
  apply pairwise_flatMap'
  · intro s _
    unfold getCombinationIndices
    rw [List.pairwise_append]
    refine ⟨?_, ?_, ?_⟩
    · apply List.pairwise_of_forall_mem_list
      intro a ha _ _ _ _
      exact (List.mem_filter.mp ha).2
    · apply List.pairwise_of_forall_mem_list
      intro a _ b hb _ hbc
      have := (List.mem_filter.mp hb).2
      rw [hbc] at this
      simp at this
    · intro a ha b _ _ _
      exact (List.mem_filter.mp ha).2
  · apply List.Pairwise.imp ?_ (sizesDesc_pairwise_gt n)
    intro s1 s2 (h : s1 > s2) x hx y hy heq
    rw [(mem_getCI.mp hx).1, (mem_getCI.mp hy).1] at heq
    omega

lemma generateCombinations_eq {terms : List String} (h : 1 ≤ terms.length) :
    generateCombinations terms =
      (allCombinationIndices terms.length).map
        (fun idx => idx.map (fun i => terms.getD i "")) := by
  by_cases h1 : terms.length ≤ 1
  · have hlen : terms.length = 1 := le_antisymm h1 h
    obtain ⟨a, rfl⟩ : ∃ a, terms = [a] := List.length_eq_one.mp hlen
    rw [generateCombinations, if_pos h1]
    have hall : allCombinationIndices ([a].length) = [[0]] := by
      show allCombinationIndices 1 = [[0]]
      decide
    rw [hall]
    simp
  · rw [generateCombinations, if_neg h1]
    unfold allCombinationIndices
    rw [List.map_flatMap]

/-- Claim C2 (counterexample): on the empty term sequence the code returns
the single combination `[[]]`, i.e. one combination, not `2^0 − 1 = 0`. -/
theorem c2_counterexample :
    generateCombinations ([] : List String) = [[]]
    ∧ (generateCombinations ([] : List String)).length = 1
    ∧ (2 : Nat) ^ 0 - 1 = 0 := by decide

/-- Claim C2 (amended, for non-empty sequences): `generateCombinations`
emits exactly `2^n − 1` combinations, one per non-empty ascending index
set over `n` indices, with no index set repeated, grouped by size from
`n` down to 1 (sizes never increase along the output), and with
contiguous index runs preceding non-contiguous ones within each size
group; for `["A","B","C"]` the output order is exactly the claimed one. -/
theorem c2_generateCombinations_spec (terms : List String)
    (h : 1 ≤ terms.length) :
    (generateCombinations terms).length = 2 ^ terms.length - 1
    ∧ generateCombinations terms =
        (allCombinationIndices terms.length).map
          (fun idx => idx.map (fun i => terms.getD i ""))
    ∧ (allCombinationIndices terms.length).Nodup
    ∧ (∀ idx, idx ∈ allCombinationIndices terms.length ↔
        idx ≠ [] ∧ idx.Pairwise (· < ·) ∧ ∀ i ∈ idx, i < terms.length)
    ∧ (allCombinationIndices terms.length).Pairwise
        (fun a b => b.length ≤ a.length)
    ∧ (allCombinationIndices terms.length).Pairwise
        (fun a b => a.length = b.length →
          isContiguous b = true → isContiguous a = true)
    ∧ generateCombinations ["A", "B", "C"] =
        [["A", "B", "C"], ["A", "B"], ["B", "C"], ["A", "C"],
          ["A"], ["B"], ["C"]] := by
  refine ⟨?_, generateCombinations_eq h, allCI_nodup _,
    fun idx => mem_allCI, allCI_length_sorted _, allCI_contiguous_first _,
    by decide⟩
  rw [generateCombinations_eq h, List.length_map, allCI_length]

/-- Witness for C2's amended theorem at `["A", "B", "C"]`. -/
theorem c2_generateCombinations_spec_witness :
    (generateCombinations ["A", "B", "C"]).length = 2 ^ 3 - 1 :=
  (c2_generateCombinations_spec ["A", "B", "C"] (by decide)).1

/-! Section: Claim C3: the order of issued combinations -/

lemma isContiguous_range' : ∀ m s, isContiguous (List.range' s m) = true := by
  intro m
  induction m with
  | zero => intro s; rfl
  | succ k ih =>
    intro s
    rw [List.range'_succ]
    cases k with
    | zero => rfl
    | succ k2 =>
      rw [List.range'_succ]
      show ((s + 1 == s + 1) && isContiguous ((s + 1) :: List.range' (s + 1 + 1) k2))
        = true
      have := ih (s + 1)
      rw [List.range'_succ] at this
      simpa using this

lemma combine_full (n : Nat) : combine n 0 n = [List.range n] := by
  have hlen : (combine n 0 n).length = 1 := by
    rw [length_combine n n n 0 (by omega), Nat.choose_self]
  obtain ⟨l, hl⟩ : ∃ l, combine n 0 n = [l] := List.length_eq_one.mp hlen
  have hmem : l ∈ combine n 0 n := by rw [hl]; exact List.mem_singleton_self _
  obtain ⟨h1, h2, h3⟩ := mem_combine.mp hmem
  rw [hl]
  congr 1
  have hnd : l.Nodup := h2.imp (fun h => ne_of_lt h)
  have hsub : l ⊆ List.range n := by
    intro i hi
    rw [List.mem_range]
    exact (h3 i hi).2
  have hsp : l.Subperm (List.range n) := hnd.subperm hsub
  have hperm : l.Perm (List.range n) :=
    hsp.perm_of_length_le (by rw [List.length_range, h1])
  exact List.eq_of_perm_of_sorted hperm h2 (List.pairwise_lt_range n)

lemma getCI_full (n : Nat) : getCombinationIndices n n = [List.range n] := by
  unfold getCombinationIndices
  rw [combine_full]
  have hct : isContiguous (List.range n) = true := by
    rw [List.range_eq_range']
    exact isContiguous_range' n 0
  simp [hct]

lemma sizesDesc_succ (n : Nat) : sizesDesc (n + 1) = (n + 1) :: sizesDesc n := by
  unfold sizesDesc
  rw [List.range_succ, List.reverse_append]
  simp

lemma map_getD_range (tu : List String) :
    (List.range tu.length).map (fun i => tu.getD i "") = tu := by
  apply List.ext_getElem (by simp)
  intro i h1 h2
  simp only [List.getElem_map, List.getElem_range]
  rw [List.getD_eq_getElem?_getD, List.getElem?_eq_getElem h2]
  rfl

lemma count_filter_eq {α : Type _} [BEq α] [LawfulBEq α] (p : α → Bool)
    (l : List α) (a : α) :
    List.count a (l.filter p) = if p a then List.count a l else 0 := by
  by_cases h : p a = true
  · rw [if_pos h, List.count_filter h]
  · rw [if_neg h]
    apply List.count_eq_zero.mpr
    intro hmem
    exact h (List.mem_filter.mp hmem).2

lemma generateCombinations_head (tu : List String) :
    (generateCombinations tu).head? = some tu := by
  by_cases h1 : tu.length ≤ 1
  · rw [generateCombinations, if_pos h1]; rfl
  · rw [generateCombinations, if_neg h1]
    obtain ⟨m, hm⟩ : ∃ m, tu.length = m + 1 := ⟨tu.length - 1, by omega⟩
    rw [hm, sizesDesc_succ, List.flatMap_cons, ← hm, getCI_full]
    rw [hm]
    simp only [List.map_cons, List.map_nil, List.cons_append, List.head?_cons]
    rw [← hm, map_getD_range]

lemma combosFor_head (tu : List String) :
    (combosFor tu).head? = some tu := by
  obtain ⟨rest, hrest⟩ : ∃ rest, generateCombinations tu = tu :: rest := by
    have hh := generateCombinations_head tu
    cases he : generateCombinations tu with
    | nil => rw [he] at hh; simp at hh
    | cons a r =>
      rw [he] at hh
      simp only [List.head?_cons, Option.some.injEq] at hh
      exact ⟨r, by rw [hh]⟩
  unfold combosFor
  rw [hrest]
  simp [List.filter_cons]

lemma four_filter_perm {α : Type _} (l : List α) (p1 p2 p3 p4 : α → Bool)
    (hexh : ∀ a ∈ l, (p1 a || p2 a || p3 a || p4 a) = true)
    (h21 : ∀ a ∈ l, p2 a = true → p1 a = false)
    (h31 : ∀ a ∈ l, p3 a = true → p1 a = false)
    (h32 : ∀ a ∈ l, p3 a = true → p2 a = false)
    (h41 : ∀ a ∈ l, p4 a = true → p1 a = false)
    (h42 : ∀ a ∈ l, p4 a = true → p2 a = false)
    (h43 : ∀ a ∈ l, p4 a = true → p3 a = false) :
    (l.filter p1 ++ (l.filter p2 ++ (l.filter p3 ++ l.filter p4))).Perm l := by
  have e2 : l.filter p2 = (l.filter (fun a => !p1 a)).filter p2 := by
    rw [List.filter_filter]
    apply (List.filter_congr ?_).symm
    intro a ha
    cases h : p2 a with
    | true => simp [h21 a ha h, h]
    | false => simp [h]
  have e3 : l.filter p3 =
      ((l.filter (fun a => !p1 a)).filter (fun a => !p2 a)).filter p3 := by
    rw [List.filter_filter, List.filter_filter]
    apply (List.filter_congr ?_).symm
    intro a ha
    cases h : p3 a with
    | true => simp [h31 a ha h, h32 a ha h, h]
    | false => simp [h]
  have e4 : l.filter p4 =
      (((l.filter (fun a => !p1 a)).filter (fun a => !p2 a)).filter
        (fun a => !p3 a)).filter p4 := by
    rw [List.filter_filter, List.filter_filter, List.filter_filter]
    apply (List.filter_congr ?_).symm
    intro a ha
    cases h : p4 a with
    | true => simp [h41 a ha h, h42 a ha h, h43 a ha h, h]
    | false => simp [h]
  have hnil : (((l.filter (fun a => !p1 a)).filter (fun a => !p2 a)).filter
      (fun a => !p3 a)).filter (fun a => !p4 a) = [] := by
    rw [List.filter_eq_nil_iff]
    intro a ha
    have h3 := (List.mem_filter.mp ha).2
    have h2' := (List.mem_filter.mp (List.mem_of_mem_filter ha)).2
    have h1' := (List.mem_filter.mp
      (List.mem_of_mem_filter (List.mem_of_mem_filter ha))).2
    have hal : a ∈ l := List.mem_of_mem_filter
      (List.mem_of_mem_filter (List.mem_of_mem_filter ha))
    have hx := hexh a hal
    simp only [Bool.not_eq_true'] at h1' h2' h3
    rw [h1', h2', h3] at hx
    simp only [Bool.false_or] at hx
    simp [hx]
  have A4 : (l.filter p4).Perm
      (((l.filter (fun a => !p1 a)).filter (fun a => !p2 a)).filter
        (fun a => !p3 a)) := by
    have hp := List.filter_append_perm p4
      (((l.filter (fun a => !p1 a)).filter (fun a => !p2 a)).filter
        (fun a => !p3 a))
    rw [hnil, List.append_nil] at hp
    rw [e4]
    exact hp
  have A3 : (l.filter p3 ++ l.filter p4).Perm
      ((l.filter (fun a => !p1 a)).filter (fun a => !p2 a)) := by
    refine (A4.append_left (l.filter p3)).trans ?_
    rw [e3]
    exact List.filter_append_perm _ _
  have A2 : (l.filter p2 ++ (l.filter p3 ++ l.filter p4)).Perm
      (l.filter (fun a => !p1 a)) := by
    refine (A3.append_left (l.filter p2)).trans ?_
    rw [e2]
    exact List.filter_append_perm _ _
  refine (A2.append_left (l.filter p1)).trans ?_
  exact List.filter_append_perm _ _

lemma combosFor_perm {tu : List String} (h2 : 2 ≤ tu.length) :
    (combosFor tu).Perm (generateCombinations tu) := by
  have hmem : ∀ c ∈ generateCombinations tu, 1 ≤ c.length ∧ c.length ≤ tu.length := by
    intro c hc
    rw [generateCombinations_eq (by omega)] at hc
    obtain ⟨idx, hidx, rfl⟩ := List.mem_map.mp hc
    obtain ⟨hne, hpw, hb⟩ := mem_allCI.mp hidx
    constructor
    · rw [List.length_map]; exact List.length_pos.mpr hne
    · rw [List.length_map]; exact length_le_of_sorted_lt hpw hb
  have hcf : combosFor tu =
      (generateCombinations tu).filter (fun c => c.length == tu.length)
      ++ (generateCombinations tu).filter
            (fun c => decide (2 ≤ c.length) && decide (c.length ≤ 3)
              && decide (c.length < tu.length))
      ++ (generateCombinations tu).filter
            (fun c => decide (3 < c.length) && decide (c.length < tu.length))
      ++ (generateCombinations tu).filter (fun c => c.length == 1) := rfl
  rw [hcf, List.append_assoc, List.append_assoc]
  apply four_filter_perm
  · intro a ha
    have := hmem a ha
    simp only [Bool.or_eq_true, Bool.and_eq_true, decide_eq_true_eq, beq_iff_eq]
    omega
  all_goals
    intro a ha h
    have := hmem a ha
    simp only [Bool.and_eq_true, decide_eq_true_eq, beq_iff_eq] at h
    simp only [Bool.and_eq_false_iff, decide_eq_false_iff_not,
      beq_eq_false_iff_ne, ne_eq]
    omega

/-- Claim C3 (counterexample): for a five-term term-set the broadening loop
does not iterate combinations in generator order: the code reorders them
as full length, sizes 2–3, sizes above 3, singles, so combination sizes
are not descending along the issue order. -/
theorem c3_counterexample :
    termsToUse ["alpha", "beta", "gamma", "delta", "epsil"] =
      ["alpha", "beta", "gamma", "delta", "epsil"]
    ∧ (combosFor ["alpha", "beta", "gamma", "delta", "epsil"]).map List.length =
        [5, 3, 3, 3, 3, 3, 3, 3, 3, 3, 3, 2, 2, 2, 2, 2, 2, 2, 2, 2, 2,
          4, 4, 4, 4, 4, 1, 1, 1, 1, 1]
    ∧ combosFor ["alpha", "beta", "gamma", "delta", "epsil"] ≠
        generateCombinations ["alpha", "beta", "gamma", "delta", "epsil"]
    ∧ (attemptsFor ["alpha", "beta", "gamma", "delta", "epsil"]).map Attempt.combo ≠
        (generateCombinations ["alpha", "beta", "gamma", "delta", "epsil"]).flatMap
          (fun c => [c, c]) := by decide

lemma combosFor_single (a : String) : combosFor [a] = [[a], [a]] := rfl

/-- Claim C3 (amended): for each term-set the broadening loop issues the
full-length combination first, querying `device_name` before
`definition` for each combination; when the sequence actually used has
at least two terms the issued combinations are a permutation of the
generator's output (full length, then sizes 2–3 in generator order,
then sizes above 3, then singles), while a single-term sequence has its
unique combination issued twice — the full-length and singles groups
both select it — so the issued sequence is then not a permutation of
the generator's output. -/
theorem c3_attempt_order (ts : List String) :
    (2 ≤ (termsToUse ts).length →
      (combosFor (termsToUse ts)).Perm (generateCombinations (termsToUse ts)))
    ∧ ((termsToUse ts).length = 1 →
        ∃ a, termsToUse ts = [a] ∧ combosFor (termsToUse ts) = [[a], [a]]
          ∧ generateCombinations (termsToUse ts) = [[a]])
    ∧ (combosFor (termsToUse ts)).head? = some (termsToUse ts)
    ∧ attemptsFor ts = (combosFor (termsToUse ts)).flatMap
        (fun c => [⟨c, (termsToUse ts).length, QField.device_name⟩,
                   ⟨c, (termsToUse ts).length, QField.definitionField⟩]) := by
  refine ⟨fun h2 => combosFor_perm h2, ?_, combosFor_head _, rfl⟩
  intro h1
  obtain ⟨a, ha⟩ := List.length_eq_one.mp h1
  exact ⟨a, ha, by rw [ha]; exact combosFor_single a, by rw [ha]; rfl⟩

/-- Witness for C3's amended theorem: a two-term term-set gives a
permutation of the generator's output, and the single-term term-set
`["thermometer"]` has its unique combination issued twice. -/
theorem c3_attempt_order_witness :
    (combosFor (termsToUse ["alpha", "beta"])).Perm
      (generateCombinations (termsToUse ["alpha", "beta"]))
    ∧ ∃ a, termsToUse ["thermometer"] = [a]
        ∧ combosFor (termsToUse ["thermometer"]) = [[a], [a]]
        ∧ generateCombinations (termsToUse ["thermometer"]) = [[a]] :=
  ⟨(c3_attempt_order ["alpha", "beta"]).1 (by decide),
   (c3_attempt_order ["thermometer"]).2.1 (by decide)⟩

/-! Section: Claim C5: strong / weak resolution logic -/

lemma strongHit_eq_true_iff (oracle : COracle) (orig : List String) (a : Attempt) :
    strongHit oracle orig a = true ↔
      (okResp (oracle a.field a.combo) = true ∧
        (a.tuLen ≤ a.combo.length ∨
          RELEVANCE_THRESHOLD ≤ scoreResults (oracle a.field a.combo).results orig)) := by
  simp [strongHit]

lemma broadenLoop_spec (oracle : COracle) (orig : List String) :
    ∀ (atts : List Attempt) (calls : Nat) (bw : Option (List DRecord × ℚ)),
      (broadenLoop oracle orig atts calls bw).1 =
        ((atts.take (MAX_API_CALLS - calls)).find? (strongHit oracle orig)).map
          (fun a => (oracle a.field a.combo).results)
      ∧ ((atts.take (MAX_API_CALLS - calls)).find? (strongHit oracle orig) = none →
          (broadenLoop oracle orig atts calls bw).2.1 =
            (atts.take (MAX_API_CALLS - calls)).foldl (weakStep oracle orig) bw) := by
  intro atts
  induction atts with
  | nil => intro calls bw; simp [broadenLoop]
  | cons a rest ih =>
    intro calls bw
    by_cases hcap : MAX_API_CALLS ≤ calls
    · have h0 : MAX_API_CALLS - calls = 0 := by omega
      rw [h0]
      simp [broadenLoop, hcap]
    · have h30 : MAX_API_CALLS - calls = (MAX_API_CALLS - (calls + 1)) + 1 := by
        omega
      rw [h30, List.take_succ_cons]
      cases hs : strongHit oracle orig a with
      | true =>
        have hcond := (strongHit_eq_true_iff oracle orig a).mp hs
        rw [List.find?_cons_of_pos _ hs]
        constructor
        · show (broadenLoop oracle orig (a :: rest) calls bw).1 = _
          rw [broadenLoop, if_neg hcap, if_pos hcond]
          rfl
        · intro h
          exact absurd h (by simp)
      | false =>
        have hcond : ¬ (okResp (oracle a.field a.combo) = true ∧
            (a.tuLen ≤ a.combo.length ∨
              RELEVANCE_THRESHOLD ≤ scoreResults (oracle a.field a.combo).results orig)) := by
          intro hc
          rw [← strongHit_eq_true_iff] at hc
          rw [hc] at hs
          cases hs
        have hred : broadenLoop oracle orig (a :: rest) calls bw =
            broadenLoop oracle orig rest (calls + 1) (weakStep oracle orig bw a) := by
          rw [broadenLoop, if_neg hcap, if_neg hcond]
        rw [hred, List.find?_cons_of_neg _ (by simp [hs]), List.foldl_cons]
        exact ih (calls + 1) (weakStep oracle orig bw a)

/-- Claim C5: the outcome of the query path is determined as the claim
states: the first issued attempt (within the 30-call budget) whose
response is non-empty and either full-length or scoring at least the
0.4 threshold against the original terms is returned immediately as
Strong; otherwise the weak candidate accumulated by `weakStep` (kept
exactly when its score strictly exceeds the best seen) is returned as
Weak; otherwise the bridge outcome or the Unresolved fallback. -/
theorem c5_resolve_strong_weak (co : COracle) (k510 : KOracle) (lup : LOracle)
    (query : String) (orig : List String) :
    (resolveFromTerms co k510 lup query orig).1 =
      match ((broadenAttempts orig).take MAX_API_CALLS).find? (strongHit co orig) with
      | some a => Outcome.strong (co a.field a.combo).results
      | none =>
        match ((broadenAttempts orig).take MAX_API_CALLS).foldl
            (weakStep co orig) none with
        | some b => Outcome.weak b.1
        | none =>
          match (bridgeVia510k k510 lup orig).1 with
          | some info => Outcome.bridged info
          | none => Outcome.unresolved query (suggestionsFor orig) := by
  obtain ⟨h1, h2⟩ := broadenLoop_spec co orig (broadenAttempts orig) 0 none
  rw [Nat.sub_zero] at h1 h2
  rcases hRe : broadenLoop co orig (broadenAttempts orig) 0 none with ⟨st, bwv, cl⟩
  rw [hRe] at h1 h2
  simp only at h1 h2
  unfold resolveFromTerms
  rw [hRe]
  cases hfind : ((broadenAttempts orig).take MAX_API_CALLS).find? (strongHit co orig) with
  | some a =>
    rw [hfind] at h1
    simp only [Option.map] at h1
    rw [h1]
  | none =>
    rw [hfind] at h1 h2
    simp only [Option.map] at h1
    have h2' := h2 rfl
    subst h1
    subst h2'
    cases hfold : ((broadenAttempts orig).take MAX_API_CALLS).foldl
        (weakStep co orig) none with
    | some b => rfl
    | none =>
      rcases hbre : bridgeVia510k k510 lup orig with ⟨br, bis, bcl⟩
      cases br <;> rfl

/-! Section: Claim C1: the call budget -/

lemma broadenLoop_calls_le (oracle : COracle) (orig : List String) :
    ∀ (atts : List Attempt) (calls : Nat) (bw : Option (List DRecord × ℚ)),
      calls ≤ MAX_API_CALLS →
      (broadenLoop oracle orig atts calls bw).2.2 ≤ MAX_API_CALLS := by
  intro atts
  induction atts with
  | nil => intro calls bw h; simpa [broadenLoop] using h
  | cons a rest ih =>
    intro calls bw h
    rw [broadenLoop]
    split
    · simpa using h
    · next hcap =>
      by_cases hcond : okResp (oracle a.field a.combo) = true ∧
          (a.tuLen ≤ a.combo.length ∨
            RELEVANCE_THRESHOLD ≤ scoreResults (oracle a.field a.combo).results orig)
      · rw [if_pos hcond]
        simp only
        omega
      · rw [if_neg hcond]
        exact ih (calls + 1) _ (by omega)

/-- Claim C1 (counterexample): with four distinct non-filler terms and a
search port that fails every request, the broadening loop spends its
entire 30-call budget and the 510(k) bridge then issues 11 further
uncounted calls, for 41 external invocations in one top-level
resolution — more than 30. -/
theorem c1_counterexample :
    (resolveFromTerms errClassOracle err510kOracle errLookupOracle
        "alpha beta gamma delta" ["alpha", "beta", "gamma", "delta"]).2 = 41
    ∧ (broadenLoop errClassOracle ["alpha", "beta", "gamma", "delta"]
        (broadenAttempts ["alpha", "beta", "gamma", "delta"]) 0 none).2.2 = 30
    ∧ (bridgeVia510k err510kOracle errLookupOracle
        ["alpha", "beta", "gamma", "delta"]).2.2 = 11
    ∧ ¬ (41 ≤ 30) := by
  refine ⟨by rfl, by rfl, by rfl, by omega⟩

/-- Claim C1 (amended): the broadening loop alone never issues more than
30 external search calls per top-level resolution; the 510(k) bridge's
calls are not counted against this budget. -/
theorem c1_broaden_budget (co : COracle) (orig : List String)
    (atts : List Attempt) (bw : Option (List DRecord × ℚ)) :
    (broadenLoop co orig atts 0 bw).2.2 ≤ MAX_API_CALLS :=
  broadenLoop_calls_le co orig atts 0 bw (by omega)

/-! Section: Claim C9: every external call failing -/

lemma broadenLoop_allerr (oracle : COracle) (orig : List String)
    (herr : ∀ f c, (oracle f c).error = true) :
    ∀ (atts : List Attempt) (calls : Nat) (bw : Option (List DRecord × ℚ)),
      (broadenLoop oracle orig atts calls bw).1 = none ∧
      (broadenLoop oracle orig atts calls bw).2.1 = bw := by
  intro atts
  induction atts with
  | nil => intro calls bw; simp [broadenLoop]
  | cons a rest ih =>
    intro calls bw
    rw [broadenLoop]
    split
    · simp
    · have hok : okResp (oracle a.field a.combo) = false := by
        simp [okResp, herr]
      rw [if_neg (by simp [hok])]
      have hws : weakStep oracle orig bw a = bw := by simp [weakStep, hok]
      rw [hws]
      exact ih (calls + 1) bw

lemma bridgeLoop_nosuccess (k510 : KOracle) (lup : LOracle)
    (hfail : ∀ c, okResp (k510 c) = false) :
    ∀ (cands : List (List String)) (seen : List String)
      (issued : List (List String)) (calls : Nat),
      (bridgeLoop k510 lup cands seen issued calls).1 = none := by
  intro cands
  induction cands with
  | nil => intro seen issued calls; simp [bridgeLoop]
  | cons c rest ih =>
    intro seen issued calls
    rw [bridgeLoop]
    split
    · exact ih _ _ _
    · rw [if_neg (by simp [hfail c])]
      exact ih _ _ _

/-- Claim C9: when every external search invocation fails, the query path
terminates with the Unresolved outcome carrying the original query and
the selected suggestion template; no error escapes and no weak or strong
result is produced. -/
theorem c9_all_errors_unresolved (co : COracle) (k510 : KOracle)
    (lup : LOracle) (query : String) (orig : List String)
    (hco : ∀ f c, (co f c).error = true)
    (hk : ∀ c, (k510 c).error = true) :
    (resolveFromTerms co k510 lup query orig).1 =
      Outcome.unresolved query (suggestionsFor orig) := by
  have h := broadenLoop_allerr co orig hco (broadenAttempts orig) 0 none
  rcases hRe : broadenLoop co orig (broadenAttempts orig) 0 none with ⟨st, bwv, cl⟩
  rw [hRe] at h
  simp only at h
  obtain ⟨h1, h2⟩ := h
  subst h1
  subst h2
  have hb := bridgeLoop_nosuccess k510 lup
    (fun c => by simp [okResp, hk c]) (bridgeAllCandidates orig) [] [] 0
  rcases hbe : bridgeVia510k k510 lup orig with ⟨br, bis, bcl⟩
  have : br = none := by
    have := hbe
    unfold bridgeVia510k at this
    rw [this] at hb
    simpa using hb
  subst this
  unfold resolveFromTerms
  rw [hRe, hbe]

/-- Witness for C9 with constantly failing oracles. -/
theorem c9_all_errors_unresolved_witness :
    (resolveFromTerms errClassOracle err510kOracle errLookupOracle
        "ecg monitor" ["ecg", "monitor"]).1 =
      Outcome.unresolved "ecg monitor" (suggestionsFor ["ecg", "monitor"]) :=
  c9_all_errors_unresolved errClassOracle err510kOracle errLookupOracle
    "ecg monitor" ["ecg", "monitor"] (fun _ _ => rfl) (fun _ => rfl)

/-! Section: Claim C8: the 510(k) bridge's candidate handling -/

lemma addCode_codes (acc : List CodeInfo) (r : DRecord) :
    (addCode acc r).map CodeInfo.code =
      if (strUpper r.product_code == "" ||
          !isProductCode (strUpper r.product_code)) = true then
        acc.map CodeInfo.code
      else if acc.any (fun ci => ci.code == strUpper r.product_code) = true then
        acc.map CodeInfo.code
      else acc.map CodeInfo.code ++ [strUpper r.product_code] := by
  by_cases h1 : (strUpper r.product_code == "" ||
      !isProductCode (strUpper r.product_code)) = true
  · rw [if_pos h1]
    unfold addCode
    rw [if_pos h1]
  · rw [if_neg h1]
    by_cases h2 : acc.any (fun ci => ci.code == strUpper r.product_code) = true
    · rw [if_pos h2]
      unfold addCode
      rw [if_neg h1, if_pos h2, List.map_map]
      apply List.map_congr_left
      intro ci _
      simp only [Function.comp_apply]
      split <;> rfl
    · rw [if_neg h2]
      unfold addCode
      rw [if_neg h1, if_neg h2]
      simp

lemma foldl_addCode_spec (rs : List DRecord) : ∀ acc : List CodeInfo,
    ((acc.map CodeInfo.code).Nodup →
      ((rs.foldl addCode acc).map CodeInfo.code).Nodup)
    ∧ ∀ pc, pc ∈ (rs.foldl addCode acc).map CodeInfo.code ↔
        (pc ∈ acc.map CodeInfo.code ∨
          ∃ r ∈ rs, strUpper r.product_code = pc ∧ ¬ pc = "" ∧
            isProductCode pc = true) := by
  induction rs with
  | nil => intro acc; simp
  | cons r rest ih =>
    intro acc
    rw [List.foldl_cons]
    have hcodes := addCode_codes acc r
    obtain ⟨ihn, ihm⟩ := ih (addCode acc r)
    by_cases h1 : (strUpper r.product_code == "" ||
        !isProductCode (strUpper r.product_code)) = true
    · rw [if_pos h1] at hcodes
      refine ⟨fun hnd => ihn (by rw [hcodes]; exact hnd), ?_⟩
      intro pc
      rw [ihm pc, hcodes]
      constructor
      · rintro (h | ⟨r', hr', hh⟩)
        · exact Or.inl h
        · exact Or.inr ⟨r', List.mem_cons_of_mem _ hr', hh⟩
      · rintro (h | ⟨r', hr', heq, hne, hvp⟩)
        · exact Or.inl h
        · rcases List.mem_cons.mp hr' with rfl | hr''
          · exfalso
            simp only [Bool.or_eq_true, beq_iff_eq, Bool.not_eq_true'] at h1
            rcases h1 with he | hv
            · exact hne (heq ▸ he)
            · rw [heq] at hv
              rw [hv] at hvp
              cases hvp
          · exact Or.inr ⟨r', hr'', heq, hne, hvp⟩
    · have h1' : ¬ strUpper r.product_code = "" ∧
          isProductCode (strUpper r.product_code) = true := by
        simp only [Bool.or_eq_true, beq_iff_eq, Bool.not_eq_true'] at h1
        push_neg at h1
        exact ⟨h1.1, by
          have := h1.2
          cases hv : isProductCode (strUpper r.product_code)
          · exact absurd hv this
          · rfl⟩
      rw [if_neg h1] at hcodes
      by_cases h2 : acc.any (fun ci => ci.code == strUpper r.product_code) = true
      · rw [if_pos h2] at hcodes
        refine ⟨fun hnd => ihn (by rw [hcodes]; exact hnd), ?_⟩
        intro pc
        rw [ihm pc, hcodes]
        constructor
        · rintro (h | ⟨r', hr', hh⟩)
          · exact Or.inl h
          · exact Or.inr ⟨r', List.mem_cons_of_mem _ hr', hh⟩
        · rintro (h | ⟨r', hr', heq, hne, hvp⟩)
          · exact Or.inl h
          · rcases List.mem_cons.mp hr' with rfl | hr''
            · left
              obtain ⟨ci, hci, hceq⟩ := List.any_eq_true.mp h2
              rw [← heq]
              exact List.mem_map.mpr ⟨ci, hci, by simpa using hceq⟩
            · exact Or.inr ⟨r', hr'', heq, hne, hvp⟩
      · rw [if_neg h2] at hcodes
        constructor
        · intro hnd
          apply ihn
          rw [hcodes]
          apply List.Nodup.append hnd (List.nodup_singleton _)
          intro x hx hx2
          simp only [List.mem_singleton] at hx2
          subst hx2
          obtain ⟨ci, hci, hcik⟩ := List.mem_map.mp hx
          exact h2 (List.any_eq_true.mpr ⟨ci, hci, by simpa using hcik⟩)
        · intro pc
          rw [ihm pc, hcodes]
          simp only [List.mem_append, List.mem_singleton]
          constructor
          · rintro ((h | rfl) | ⟨r', hr', hh⟩)
            · exact Or.inl h
            · exact Or.inr ⟨r, List.mem_cons_self _ _, rfl, h1'.1, h1'.2⟩
            · exact Or.inr ⟨r', List.mem_cons_of_mem _ hr', hh⟩
          · rintro (h | ⟨r', hr', heq, hne, hvp⟩)
            · exact Or.inl (Or.inl h)
            · rcases List.mem_cons.mp hr' with rfl | hr''
              · exact Or.inl (Or.inr heq.symm)
              · exact Or.inr ⟨r', hr'', heq, hne, hvp⟩

lemma collectCodes_spec (rs : List DRecord) :
    ((collectCodes rs).map CodeInfo.code).Nodup
    ∧ ∀ pc, pc ∈ (collectCodes rs).map CodeInfo.code ↔
        ∃ r ∈ rs, strUpper r.product_code = pc ∧ ¬ pc = "" ∧
          isProductCode pc = true := by
  obtain ⟨hn, hm⟩ := foldl_addCode_spec rs []
  refine ⟨hn (by simp), fun pc => ?_⟩
  rw [show collectCodes rs = rs.foldl addCode [] from rfl, hm pc]
  simp

lemma bridgeLoop_issued_nodup (k510 : KOracle) (lup : LOracle) :
    ∀ (cands : List (List String)) (seen : List String)
      (issued : List (List String)) (calls : Nat),
      (issued.map joinPlus).Nodup →
      (∀ c' ∈ issued, joinPlus c' ∈ seen) →
      (((bridgeLoop k510 lup cands seen issued calls).2.1).map joinPlus).Nodup := by
  intro cands
  induction cands with
  | nil => intro seen issued calls h1 _; simpa [bridgeLoop] using h1
  | cons c rest ih =>
    intro seen issued calls h1 h2
    rw [bridgeLoop]
    split
    · exact ih _ _ _ h1 h2
    · next hnc =>
      have hkey : joinPlus c ∉ seen := by simpa using hnc
      have h1' : ((issued ++ [c]).map joinPlus).Nodup := by
        rw [List.map_append]
        apply List.Nodup.append h1 (List.nodup_singleton _)
        intro x hx hx2
        simp only [List.map_cons, List.map_nil, List.mem_singleton] at hx2
        subst hx2
        obtain ⟨c', hc', hcek⟩ := List.mem_map.mp hx
        exact hkey (hcek ▸ h2 c' hc')
      have h2' : ∀ c' ∈ issued ++ [c], joinPlus c' ∈ joinPlus c :: seen := by
        intro c' hc'
        rcases List.mem_append.mp hc' with h | h
        · exact List.mem_cons_of_mem _ (h2 c' h)
        · simp only [List.mem_singleton] at h
          subst h
          exact List.mem_cons_self _ _
      by_cases hok : okResp (k510 c) = true
      · rw [if_pos hok]
        by_cases hce : (collectCodes (k510 c).results).isEmpty = true
        · rw [if_pos hce]
          exact ih _ _ _ h1' h2'
        · rw [if_neg hce]
          by_cases hcr : ((collectCodes (k510 c).results).flatMap (fun ci =>
              if okResp (lup ci.code) = true then (lup ci.code).results
              else [])).isEmpty = true
          · rw [if_pos hcr]
            exact ih _ _ _ h1' h2'
          · rw [if_neg hcr]
            exact h1'
      · rw [if_neg hok]
        exact ih _ _ _ h1' h2'

lemma bridgeLoop_none_issued (k510 : KOracle) (lup : LOracle) :
    ∀ (cands : List (List String)) (seen : List String)
      (issued : List (List String)) (calls : Nat),
      (bridgeLoop k510 lup cands seen issued calls).1 = none →
      (bridgeLoop k510 lup cands seen issued calls).2.1 =
        issued ++ dedupByKey seen cands := by
  intro cands
  induction cands with
  | nil => intro seen issued calls _; simp [bridgeLoop, dedupByKey]
  | cons c rest ih =>
    intro seen issued calls hnone
    rw [bridgeLoop] at hnone ⊢
    rw [dedupByKey]
    by_cases hm : seen.contains (joinPlus c) = true
    · rw [if_pos hm] at hnone ⊢
      rw [if_pos hm]
      exact ih _ _ _ hnone
    · rw [if_neg hm] at hnone ⊢
      rw [if_neg hm]
      by_cases hok : okResp (k510 c) = true
      · rw [if_pos hok] at hnone ⊢
        by_cases hce : (collectCodes (k510 c).results).isEmpty = true
        · rw [if_pos hce] at hnone ⊢
          rw [ih _ _ _ hnone]
          simp
        · rw [if_neg hce] at hnone ⊢
          by_cases hcr : ((collectCodes (k510 c).results).flatMap (fun ci =>
              if okResp (lup ci.code) = true then (lup ci.code).results
              else [])).isEmpty = true
          · rw [if_pos hcr] at hnone ⊢
            rw [ih _ _ _ hnone]
            simp
          · rw [if_neg hcr] at hnone
            simp at hnone
      · rw [if_neg hok] at hnone ⊢
        rw [ih _ _ _ hnone]
        simp

/-- Claim C8 (counterexample): the bridge deduplicates by the `"+"`-joined
key of a combination, not by the combination itself: with a term
containing `"+"`, the distinct candidates `["alpha+beta"]` and
`["alpha", "beta"]` collide, and the single-term candidate is never
issued even though every query comes back empty. -/
theorem c8_counterexample :
    ["alpha+beta"] ∈ bridgeCandidates ["alpha+beta", "alpha", "beta"]
    ∧ ["alpha", "beta"] ∈ bridgeCandidates ["alpha+beta", "alpha", "beta"]
    ∧ ["alpha+beta"] ≠ ["alpha", "beta"]
    ∧ ["alpha+beta"] ∉ (bridgeVia510k empty510kOracle errLookupOracle
        ["alpha+beta", "alpha", "beta"]).2.1
    ∧ ["alpha", "beta"] ∈ (bridgeVia510k empty510kOracle errLookupOracle
        ["alpha+beta", "alpha", "beta"]).2.1 := by decide

/-- Claim C8 (amended): per term-set the candidate query set is the first 8
combinations of size ≥ 2 plus each non-generic single term of length ≥ 5;
across both term-sets no 510(k) query is issued twice for the same
`"+"`-joined key, every fresh-keyed candidate is issued as long as no
candidate yields a Bridged result, and on a non-empty 510(k) response
exactly one classification lookup is made per distinct valid product
code found, not one per record. -/
theorem c8_bridge_spec (k510 : KOracle) (lup : LOracle) (orig : List String) :
    ((bridgeVia510k k510 lup orig).2.1.map joinPlus).Nodup
    ∧ ((bridgeVia510k k510 lup orig).1 = none →
        (bridgeVia510k k510 lup orig).2.1 =
          dedupByKey [] (bridgeAllCandidates orig))
    ∧ (∀ terms, bridgeCandidates terms =
        ((generateCombinations terms).filter
          (fun c => decide (2 ≤ c.length))).take 8
        ++ ((terms.filter (fun t =>
              !(GENERIC_510K_TERMS.contains (strLower t)))).filter
            (fun t => decide (5 ≤ t.length))).map (fun t => [t]))
    ∧ (∀ rs : List DRecord, ((collectCodes rs).map CodeInfo.code).Nodup
        ∧ ∀ pc, pc ∈ (collectCodes rs).map CodeInfo.code ↔
            ∃ r ∈ rs, strUpper r.product_code = pc ∧ ¬ pc = "" ∧
              isProductCode pc = true) := by
  refine ⟨?_, ?_, fun terms => rfl, collectCodes_spec⟩
  · exact bridgeLoop_issued_nodup k510 lup _ [] [] 0 (by simp) (by simp)
  · intro hnone
    unfold bridgeVia510k at hnone ⊢
    rw [bridgeLoop_none_issued k510 lup _ [] [] 0 hnone]
    simp

/-- Witness for C8's amended theorem with an always-empty 510(k) port. -/
theorem c8_bridge_spec_witness :
    (bridgeVia510k empty510kOracle errLookupOracle
        ["alpha+beta", "alpha", "beta"]).2.1 =
      dedupByKey [] (bridgeAllCandidates ["alpha+beta", "alpha", "beta"]) :=
  (c8_bridge_spec empty510kOracle errLookupOracle
    ["alpha+beta", "alpha", "beta"]).2.1 (by rfl)

end FdaSpec
